import Mathlib

/-!
Verification of the pongo2 template lexer (`src/lexer.go`).

The Go scanner is embedded shallowly: the input is a `List Char` (one entry
per decoded rune; every character occurring in the analysed inputs is a
single-byte rune, so byte offsets and rune offsets coincide and `len` of a
scanned substring equals its character count), the mutable `lexer` struct
becomes an explicit state record, and each Go state function becomes a Lean
function on that record.  Loops are given explicit fuel; every fuel budget
below is large enough that the fuel never runs out on the executions the
theorems talk about.
-/

namespace Pongo2

/-- Characters of the modelled Go strings. -/
abbrev Str := List Char

/-- Go: `const ( TokenError = iota; EOF; TokenHTML; TokenKeyword; TokenIdentifier;
TokenString; TokenNumber; TokenSymbol )`. -/
def TokenError : Nat := 0

/-- Go: `EOF = 1` (second `iota` constant).  The same untyped constant is used
both as a token type and as the rune returned by `next()` at end of input. -/
def EOF : Nat := 1

/-- Go: `TokenHTML` (= 2). -/
def TokenHTML : Nat := 2

/-- Go: `TokenKeyword` (= 3). -/
def TokenKeyword : Nat := 3

/-- Go: `TokenIdentifier` (= 4). -/
def TokenIdentifier : Nat := 4

/-- Go: `TokenString` (= 5). -/
def TokenString : Nat := 5

/-- Go: `TokenNumber` (= 6). -/
def TokenNumber : Nat := 6

/-- Go: `TokenSymbol` (= 7). -/
def TokenSymbol : Nat := 7

/-- The rune value of the Go constant `EOF` (code point 1, i.e. U+0001),
as returned by `lexer.next` at end of input. -/
def EOFRune : Char := Char.ofNat 1

/-- Go: `tokenSpaceChars = " \n\r\t"`. -/
def tokenSpaceChars : Str := (" \n\r\t").data

/-- Go: `tokenIdentifierChars = "abc...XYZ_"`. -/
def tokenIdentifierChars : Str :=
  ("abcdefghijklmnopqrstuvwxyzABCDEFGHIJKLMNOPQRSTUVWXYZ_").data

/-- Go: `tokenDigits = "0123456789"`. -/
def tokenDigits : Str := ("0123456789").data

/-- Go: `tokenSymbols`, in source order: the eleven 2-char symbols followed by
the fifteen 1-char symbols.  (`\x7b` and `\x7d` are the brace characters.) -/
def tokenSymbols : List Str :=
  [("==").data, (">=").data, ("<=").data, ("&&").data, ("||").data,
   ("\x7b\x7b").data, ("\x7d\x7d").data, ("\x7b%").data, ("%\x7d").data,
   ("!=").data, ("<>").data,
   ("(").data, (")").data, ("+").data, ("-").data, ("*").data, ("<").data,
   (">").data, ("/").data, ("^").data, (",").data, (".").data, ("!").data,
   ("|").data, (":").data, ("=").data]

/-- Go: `tokenKeywords = []string{"in", "and", "or", "not", "true", "false"}`. -/
def tokenKeywords : List Str :=
  [("in").data, ("and").data, ("or").data, ("not").data, ("true").data,
   ("false").data]

/-- Go `Token` struct: `{Typ TokenType; Val string; Line int; Col int}`. -/
structure Token where
  typ : Nat
  val : Str
  line : Nat
  col : Nat
deriving DecidableEq, Repr

/-- Go `lexer` struct (the `name` field is carried separately by `lexRun`). -/
structure Lexer where
  name : Str
  input : Str
  start : Nat
  pos : Nat
  width : Nat
  tokens : List Token
  errored : Bool
  startline : Nat
  startcol : Nat
  line : Nat
  col : Nat
deriving DecidableEq, Repr

/-- Go: `func (l *lexer) value() string { return l.input[l.start:l.pos] }`. -/
def Lexer.value (l : Lexer) : Str := (l.input.drop l.start).take (l.pos - l.start)

/-- Go `lexer.emit`: append a token with the pending text and the recorded
start position, then move `start`/`startline`/`startcol` up to the cursor. -/
def Lexer.emit (l : Lexer) (t : Nat) : Lexer :=
  { l with tokens := l.tokens ++ [⟨t, l.value, l.startline, l.startcol⟩],
           start := l.pos, startline := l.line, startcol := l.col }

/-- Go `lexer.next`: at `pos ≥ len(input)` return `EOF` with width 0,
otherwise decode the rune at `pos` and advance.  (All runes of the analysed
inputs are single-byte, so the decoded width is 1.) -/
def Lexer.next (l : Lexer) : Char × Lexer :=
  match l.input.drop l.pos with
  | [] => (EOFRune, { l with width := 0 })
  | c :: _ => (c, { l with width := 1, pos := l.pos + 1 })

/-- Go: `func (l *lexer) backup() { l.pos -= l.width }`. -/
def Lexer.backup (l : Lexer) : Lexer := { l with pos := l.pos - l.width }

/-- Go `lexer.peek`: `next` followed by `backup`. -/
def Lexer.peek (l : Lexer) : Char × Lexer :=
  let p := l.next
  (p.1, p.2.backup)

/-- Go: `func (l *lexer) ignore() { l.start = l.pos }`.  Note that it does
not touch `startline`/`startcol`. -/
def Lexer.ignore (l : Lexer) : Lexer := { l with start := l.pos }

/-- Go `lexer.accept`: consume the next rune if it occurs in `what`,
else back up. -/
def Lexer.accept (l : Lexer) (what : Str) : Bool × Lexer :=
  let p := l.next
  if what.contains p.1 then (true, p.2) else (false, p.2.backup)

/-- Loop body of Go `lexer.acceptRun`, with explicit fuel. -/
def acceptRunGo (what : Str) : Nat → Lexer → Lexer
  | 0, l => l
  | fuel + 1, l =>
    let p := l.next
    if what.contains p.1 then acceptRunGo what fuel p.2
    else p.2.backup

/-- Go `lexer.acceptRun`: keep consuming runes of `what`; the supplied fuel
`(len - pos) + 1` covers the maximal number of iterations, so the fuel never
runs out (the run is bounded by the remaining input). -/
def Lexer.acceptRun (l : Lexer) (what : Str) : Lexer :=
  acceptRunGo what ((l.input.length - l.pos) + 1) l

/-- Go `lexer.errorf`: append a `TokenError` token holding the message and the
recorded start position, and set the `errored` flag.  (The Go state function
returns `nil` here; callers of this model stop accordingly.) -/
def Lexer.errorf (l : Lexer) (msg : Str) : Lexer :=
  { l with tokens := l.tokens ++ [⟨TokenError, msg, l.startline, l.startcol⟩],
           errored := true, startline := l.line, startcol := l.col }

/-- Go message of the error raised in `stateString`. -/
def msgStrNotClosed : Str := ("Unexpected EOF, string not closed.").data

/-- Go message of the unclosed-comment error. -/
def msgCommentNotClosed : Str := ("Single-line comment not closed.").data

/-- Go message of the newline-in-comment error. -/
def msgNewlineInComment : Str := ("Newline not permitted in a single-line comment.").data

/-- The message `fmt.Sprintf("Unknown character: %q (%d)", r, r)`.  The `%q`
verb is modelled as the rune between two apostrophes (character 39); Go would
additionally escape unprintable runes, which none of the theorems depend on. -/
def unknownCharMsg (c : Char) : Str :=
  ("Unknown character: ").data ++ [Char.ofNat 39, c, Char.ofNat 39] ++
    (" (").data ++ Nat.toDigits 10 c.toNat ++ [(Char.ofNat 41)]

/-- Inner loop of the comment branch of Go `run`, with explicit fuel.  The Bool is
`true` when the loop ended in `errorf` (Go then returns from `run`). -/
def commentLoop : Nat → Lexer → Lexer × Bool
  | 0, l => (l, false)
  | fuel + 1, l =>
    let p := l.peek
    if p.1 = EOFRune then (p.2.errorf msgCommentNotClosed, true)
    else if p.1 = ('\n' : Char) then (p.2.errorf msgNewlineInComment, true)
    else if (("#\x7d").data).isPrefixOf (p.2.input.drop p.2.pos) then
      ({ p.2 with pos := p.2.pos + 2, col := p.2.col + 2 }, false)
    else commentLoop fuel { p.2 with pos := p.2.pos + 1, col := p.2.col + 1 }

/-- Body of Go `stateIdentifier`: two `acceptRun`s, the keyword lookup, and
the emit.  (The Go function then returns `l.stateCode`; that transition is
driven by `stateCode` below.)  Note the Go bug kept intact: the Keyword
branch emits without first advancing `col`. -/
def stateIdentifier (l : Lexer) : Lexer :=
  let l1 := l.acceptRun tokenIdentifierChars
  let l2 := l1.acceptRun tokenDigits
  if tokenKeywords.contains l2.value then l2.emit TokenKeyword
  else Lexer.emit { l2 with col := l2.col + l2.value.length } TokenIdentifier

/-- Body of Go `stateNumber`: one digit `acceptRun` and the emit (the
commented-out decimal-point handling in the source is dead code). -/
def stateNumber (l : Lexer) : Lexer :=
  let l1 := l.acceptRun tokenDigits
  Lexer.emit { l1 with col := l1.col + l1.value.length } TokenNumber

/-- The quote-scanning loop of Go `stateString`, with explicit fuel.  The
Bool is `true` when the loop ended in `errorf`. -/
def stringLoop : Nat → Lexer → Lexer × Bool
  | 0, l => (l, false)
  | fuel + 1, l =>
    let a := l.accept (("\x22").data)
    if a.1 then (a.2, false)
    else
      let p := a.2.next
      if p.1 = EOFRune then (p.2.errorf msgStrNotClosed, true)
      else stringLoop fuel p.2

/-- Body of Go `stateString`.  The Bool is `false` when the function returned
`nil` after `errorf` and `true` when it returned `l.stateCode`.  The Go
`l.col += len(l.value())` counts bytes; on the single-byte runes modelled
here that equals the character count used below. -/
def stateString (l : Lexer) : Lexer × Bool :=
  let l1 := l.ignore
  let r := stringLoop ((l1.input.length - l1.pos) + 2) l1
  if r.2 then (r.1, false)
  else
    let l2 := r.1.backup
    let l3 := { l2 with col := l2.col + l2.value.length }
    let l4 := l3.emit TokenString
    let l5 := (l4.next).2
    (l5.ignore, true)

/-- The symbol-table scan ending the loop body of Go `stateCode`: the `for _, sym`
loop over `tokenSymbols` taking the first entry whose text prefixes
`l.input[l.start:]` (which is `List.find?`), the emit with `pos`/`col`
advanced by the symbol length, the early return after a closing delimiter,
and otherwise the unknown-character error (when input remains) or the normal
shutdown.  `rec` continues the outer loop (`continue outer_loop`). -/
def stateCodeSym (rec : Lexer → Lexer) (l4 : Lexer) : Lexer :=
  match tokenSymbols.find? (fun sym => sym.isPrefixOf (l4.input.drop l4.start)) with
  | some sym =>
    let l5 := Lexer.emit
      { l4 with pos := l4.pos + sym.length, col := l4.col + sym.length } TokenSymbol
    if sym = ("%\x7d").data ∨ sym = ("\x7d\x7d").data then l5
    else rec l5
  | none =>
    if l4.pos < l4.input.length then
      let p := l4.peek
      p.2.errorf (unknownCharMsg p.1)
    else l4

/-- The `case l.accept(quote)` switch arm of Go `stateCode` and what follows it.
The two results of `stateString` mirror Go returning `nil` (after `errorf`)
or `l.stateCode`. -/
def stateCodeQuote (rec : Lexer → Lexer) (l3 : Lexer) : Lexer :=
  let a4 := l3.accept (("\x22").data)
  if a4.1 then
    let r := stateString a4.2
    if r.2 then rec r.1 else r.1
  else stateCodeSym rec a4.2

/-- The `case l.accept(tokenDigits)` switch arm of Go `stateCode` and what
follows it. -/
def stateCodeDigit (rec : Lexer → Lexer) (l2 : Lexer) : Lexer :=
  let a3 := l2.accept tokenDigits
  if a3.1 then rec (stateNumber a3.2)
  else stateCodeQuote rec a3.2

/-- The `case l.accept(tokenIdentifierChars)` switch arm of Go `stateCode` and
what follows it. -/
def stateCodeIdent (rec : Lexer → Lexer) (l1 : Lexer) : Lexer :=
  let a2 := l1.accept tokenIdentifierChars
  if a2.1 then rec (stateIdentifier a2.2)
  else stateCodeDigit rec a2.2

/-- One iteration of the `outer_loop` of Go `stateCode` with the state transitions
of `tokenize` inlined: the switch arms are evaluated in source order
(whitespace, identifier start, digit, quote, then the symbol table), and
`rec` is the continuation for the paths on which the Go code loops or chains
to a state that returns `l.stateCode` again. -/
def stateCodeF (rec : Lexer → Lexer) (l : Lexer) : Lexer :=
  let a1 := l.accept tokenSpaceChars
  if a1.1 then
    let l1 := if a1.2.value = [('\n' : Char)] then
        { a1.2 with line := a1.2.line + 1, col := 1 }
      else { a1.2 with col := a1.2.col + 1 }
    rec l1.ignore
  else stateCodeIdent rec a1.2

/-- Go `stateCode`, fuelled, together with the `tokenize` trampoline: the Go
state functions return the next state to run, which is exactly the direct
recursion below. -/
def stateCode : Nat → Lexer → Lexer
  | 0, l => l
  | fuel + 1, l => stateCodeF (stateCode fuel) l

/-- Go `lexer.tokenize`: run the code-mode state machine to completion.  The
fuel `len + 4` bounds the number of state steps, each of which consumes at
least one character (or is the final one). -/
def Lexer.tokenize (l : Lexer) : Lexer := stateCode (l.input.length + 4) l

/-- The comment branch of Go `run`: flush the pending HTML span, skip past the opener
(advancing `col` across it), run the inner loop up to `#\x7d`, and on success
discard the whole comment with `ignore` and continue the outer loop (`rec`);
an `errorf` inside the loop returns from `run`. -/
def runComment (rec : Lexer → Lexer) (l : Lexer) : Lexer :=
  let l1 := if l.start < l.pos then l.emit TokenHTML else l
  let l2 := { l1 with pos := l1.pos + 2, col := l1.col + 2 }
  let r := commentLoop ((l2.input.length - l2.pos) + 2) l2
  if r.2 then r.1
  else rec r.1.ignore

/-- The tag branch of Go `run`: flush the pending HTML span, run `tokenize`, and
return immediately when it errored, else continue the outer loop. -/
def runTag (rec : Lexer → Lexer) (l : Lexer) : Lexer :=
  let l1 := if l.start < l.pos then l.emit TokenHTML else l
  let l2 := l1.tokenize
  if l2.errored then l2
  else rec l2

/-- The plain-text branch of Go `run`: advance `line`/`col` over the peeked
character, consume it, and on the EOF sentinel break out of the loop and emit
any pending HTML span. -/
def runText (rec : Lexer → Lexer) (l : Lexer) : Lexer :=
  let p := l.peek
  let l1 : Lexer := if p.1 = ('\n' : Char) then { p.2 with line := p.2.line + 1, col := 1 }
    else { p.2 with col := p.2.col + 1 }
  let q : Char × Lexer := l1.next
  if q.1 = EOFRune then
    if q.2.start < q.2.pos then q.2.emit TokenHTML else q.2
  else rec q.2

/-- One iteration of the main loop of Go `run`.  Branches in source order: comment
skipping, tag entry, plain-text consumption; the final pending-HTML emit sits
on the `break` path of the loop (the error returns bypass it), and `rec` is the
continuation for the iterating paths. -/
def runStep (rec : Lexer → Lexer) (l : Lexer) : Lexer :=
  if (("\x7b#").data).isPrefixOf (l.input.drop l.pos) then runComment rec l
  else if (("\x7b\x7b").data).isPrefixOf (l.input.drop l.pos) ∨
      (("\x7b%").data).isPrefixOf (l.input.drop l.pos) then runTag rec l
  else runText rec l

/-- The main loop of Go `lexer.run`, fuelled. -/
def runAux : Nat → Lexer → Lexer
  | 0, l => l
  | fuel + 1, l => runStep (runAux fuel) l

/-- Go `lexer.run`: each loop iteration of `runAux` consumes at least one
character (except the final one), so `len + 4` fuel always suffices. -/
def Lexer.run (l : Lexer) : Lexer := runAux (l.input.length + 4) l

/-- The error value built by Go `lex` from the last (error) token:
`[Lexer Error in name (Line l Col c)]: msg`, carried as components. -/
structure LexError where
  name : Str
  line : Nat
  col : Nat
  msg : Str
deriving DecidableEq, Repr

/-- The Go result pair `([]*Token, error)`: exactly one of the components is
meaningful (`nil` tokens with an error, or tokens with `nil` error). -/
inductive LexResult where
  | ok (tokens : List Token) : LexResult
  | err (e : LexError) : LexResult
deriving DecidableEq, Repr

/-- The final scanner state of Go `lex(name, input)` just before the result
is built: a fresh `lexer` (line/col counters at 1) after `run`. -/
def lexRun (name input : Str) : Lexer :=
  Lexer.run { name := name, input := input, start := 0, pos := 0, width := 0,
              tokens := [], errored := false, startline := 1, startcol := 1,
              line := 1, col := 1 }

/-- Go `lex`: on `errored`, the last token (always the error token) supplies
the position and message of the single returned error and no tokens are
returned; otherwise the token list is returned with a `nil` error.  (Go
indexes `tokens[len-1]`, which would panic on an empty list; that unreachable
path is mapped to a dummy error below.) -/
def lex (name input : Str) : LexResult :=
  let l := lexRun name input
  if l.errored then
    match l.tokens.getLast? with
    | some t => .err { name := name, line := t.line, col := t.col, msg := t.val }
    | none => .err { name := name, line := 0, col := 0, msg := [] }
  else .ok l.tokens

/-- The text a token contributes to reconstruction: `Val`, with the two
double-quote characters (code point 34) reinserted around String tokens. -/
def tokenText (t : Token) : Str :=
  if t.typ = TokenString then Char.ofNat 34 :: (t.val ++ [Char.ofNat 34]) else t.val

/-- Concatenation of the reconstruction texts of a token list. -/
def concatTokens (ts : List Token) : Str := (ts.map tokenText).flatten

/-! ### Basic list helpers -/

lemma contains_eq_false {a : Char} {xs : Str} (h : a ∉ xs) : xs.contains a = false := by
  simpa using h

lemma drop_succ_eq {xs t : Str} {n : Nat} {c : Char} (h : xs.drop n = c :: t) :
    xs.drop (n + 1) = t := by
  rw [← List.drop_drop, h]
  rfl

lemma lt_length_of_drop_cons {xs t : Str} {n : Nat} {c : Char} (h : xs.drop n = c :: t) :
    n < xs.length := by
  have h2 := congrArg List.length h
  rw [List.length_drop] at h2
  simp at h2
  omega

lemma length_tw_le (p : Char → Bool) (xs : Str) : (xs.takeWhile p).length ≤ xs.length := by
  induction xs with
  | nil => simp
  | cons c cs ih =>
    by_cases h : p c
    · simp [List.takeWhile_cons, h]
      omega
    · simp [List.takeWhile_cons, h]

/-- Character-run length used to state what `acceptRun` consumes. -/
def runLen (what xs : Str) : Nat := (xs.takeWhile (fun c => decide (c ∈ what))).length

lemma runLen_nil (what : Str) : runLen what [] = 0 := rfl

lemma runLen_cons_mem {what : Str} {c : Char} (cs : Str) (h : c ∈ what) :
    runLen what (c :: cs) = runLen what cs + 1 := by
  simp [runLen, List.takeWhile_cons, h]

lemma runLen_cons_not_mem {what : Str} {c : Char} (cs : Str) (h : c ∉ what) :
    runLen what (c :: cs) = 0 := by
  simp [runLen, List.takeWhile_cons, h]

lemma runLen_le_length (what xs : Str) : runLen what xs ≤ xs.length :=
  length_tw_le _ xs

/-! ### Characterization of acceptRun -/

/-- The `width` field left behind by `acceptRun`: 1 if it stopped on a real
character, 0 if it stopped at end of input. -/
def runWidth (inp : Str) (p : Nat) : Nat := if p < inp.length then 1 else 0

lemma acceptRunGo_spec (what : Str) (hw : EOFRune ∉ what) : ∀ (fuel : Nat) (l : Lexer),
    runLen what (l.input.drop l.pos) + 1 ≤ fuel →
    acceptRunGo what fuel l =
      { l with
        pos := l.pos + runLen what (l.input.drop l.pos),
        width := runWidth l.input (l.pos + runLen what (l.input.drop l.pos)) } := by
  intro fuel
  induction fuel with
  | zero => intro l hf; omega
  | succ f ih =>
    intro l hf
    cases hd : l.input.drop l.pos with
    | nil =>
      have hlen : l.input.length ≤ l.pos := by
        have h2 := congrArg List.length hd
        rw [List.length_drop] at h2
        simp at h2
        omega
      rw [runLen_nil]
      obtain ⟨nm, inp, st, po, wi, tk, er, sl, sc, li, co⟩ := l
      simp only at hd hlen
      simp [acceptRunGo, Lexer.next, hd, contains_eq_false hw, Lexer.backup, runWidth, Nat.not_lt.mpr hlen]
      intro hmem
      exact absurd hmem hw
    | cons c cs =>
      have hlt : l.pos < l.input.length := lt_length_of_drop_cons hd
      have hdrop2 : l.input.drop (l.pos + 1) = cs := drop_succ_eq hd
      by_cases hc : c ∈ what
      · have hcb : what.contains c = true := by simpa using hc
        have ihres := ih { l with width := 1, pos := l.pos + 1 } (by
          simp only [hdrop2]
          rw [hd, runLen_cons_mem cs hc] at hf
          omega)
        simp only [hdrop2] at ihres
        rw [runLen_cons_mem cs hc]
        obtain ⟨nm, inp, st, po, wi, tk, er, sl, sc, li, co⟩ := l
        simp only at hd hdrop2 hlt ihres
        simp [acceptRunGo, Lexer.next, hd, hcb, ihres, runWidth]
        have e : po + 1 + runLen what cs = po + (runLen what cs + 1) := by omega
        rw [e]
        rw [if_pos hc]
      · have hcb : what.contains c = false := by simpa using hc
        rw [runLen_cons_not_mem cs hc]
        obtain ⟨nm, inp, st, po, wi, tk, er, sl, sc, li, co⟩ := l
        simp only at hd hlt
        simp [acceptRunGo, Lexer.next, hd, hcb, Lexer.backup, runWidth, hlt]
        intro hmem
        exact absurd hmem hc

lemma acceptRun_spec (l : Lexer) (what : Str) (hw : EOFRune ∉ what) :
    l.acceptRun what =
      { l with
        pos := l.pos + runLen what (l.input.drop l.pos),
        width := runWidth l.input (l.pos + runLen what (l.input.drop l.pos)) } := by
  apply acceptRunGo_spec what hw
  have h1 := runLen_le_length what (l.input.drop l.pos)
  rw [List.length_drop] at h1
  omega

/-! ### Identifier and number scanning -/

lemma emit_tokens (l : Lexer) (t : Nat) :
    (l.emit t).tokens = l.tokens ++ [⟨t, l.value, l.startline, l.startcol⟩] := rfl

/-- Number of characters consumed by `stateIdentifier` starting at `pos`: a
maximal identifier-character run followed by a maximal digit run. -/
def identRunLen (inp : Str) (pos : Nat) : Nat :=
  runLen tokenIdentifierChars (inp.drop pos) +
    runLen tokenDigits (inp.drop (pos + runLen tokenIdentifierChars (inp.drop pos)))

/-- The text emitted by `stateIdentifier` from state `l`. -/
def identText (l : Lexer) : Str :=
  (l.input.drop l.start).take (l.pos + identRunLen l.input l.pos - l.start)

lemma stateIdentifier_tokens (l : Lexer) :
    (stateIdentifier l).tokens = l.tokens ++
      [⟨if identText l ∈ tokenKeywords then TokenKeyword else TokenIdentifier,
        identText l, l.startline, l.startcol⟩] := by
  have hw1 : EOFRune ∉ tokenIdentifierChars := by decide
  have hw2 : EOFRune ∉ tokenDigits := by decide
  unfold stateIdentifier
  simp only [acceptRun_spec _ _ hw1, acceptRun_spec _ _ hw2]
  obtain ⟨nm, inp, st, po, wi, tk, er, sl, sc, li, co⟩ := l
  simp only [identText, identRunLen, Lexer.value]
  by_cases hk : (inp.drop st).take (po + (runLen tokenIdentifierChars (inp.drop po) +
      runLen tokenDigits (inp.drop (po + runLen tokenIdentifierChars (inp.drop po)))) - st)
      ∈ tokenKeywords
  · have e : po + runLen tokenIdentifierChars (inp.drop po) +
        runLen tokenDigits (inp.drop (po + runLen tokenIdentifierChars (inp.drop po))) =
        po + (runLen tokenIdentifierChars (inp.drop po) +
          runLen tokenDigits (inp.drop (po + runLen tokenIdentifierChars (inp.drop po)))) := by
      omega
    simp [emit_tokens, Lexer.value, e, hk]
  · have e : po + runLen tokenIdentifierChars (inp.drop po) +
        runLen tokenDigits (inp.drop (po + runLen tokenIdentifierChars (inp.drop po))) =
        po + (runLen tokenIdentifierChars (inp.drop po) +
          runLen tokenDigits (inp.drop (po + runLen tokenIdentifierChars (inp.drop po)))) := by
      omega
    simp [emit_tokens, Lexer.value, e, hk]

/-- The text emitted by `stateNumber` from state `l`: the pending text plus a
maximal run of decimal digits, and nothing else. -/
def numberText (l : Lexer) : Str :=
  (l.input.drop l.start).take (l.pos + runLen tokenDigits (l.input.drop l.pos) - l.start)

lemma stateNumber_tokens (l : Lexer) :
    (stateNumber l).tokens =
      l.tokens ++ [⟨TokenNumber, numberText l, l.startline, l.startcol⟩] := by
  have hw : EOFRune ∉ tokenDigits := by decide
  unfold stateNumber
  simp only [acceptRun_spec _ _ hw]
  obtain ⟨nm, inp, st, po, wi, tk, er, sl, sc, li, co⟩ := l
  simp [numberText, emit_tokens, Lexer.value]

/-! ### Symbol matching in code mode -/

lemma take_of_isPrefixOf {p xs : Str} (h : p.isPrefixOf xs = true) :
    xs.take p.length = p := by
  obtain ⟨t, ht⟩ := List.isPrefixOf_iff_prefix.mp h
  rw [← ht, List.take_left]

lemma accept_cons_true {l : Lexer} {c : Char} {cs what : Str}
    (hd : l.input.drop l.pos = c :: cs) (hb : what.contains c = true) :
    l.accept what = (true, { l with width := 1, pos := l.pos + 1 }) := by
  have hb2 : c ∈ what := by simpa using hb
  obtain ⟨nm, inp, st, po, wi, tk, er, sl, sc, li, co⟩ := l
  simp only at hd
  simp [Lexer.accept, Lexer.next, hd, hb, hb2]

lemma accept_cons_false {l : Lexer} {c : Char} {cs what : Str}
    (hd : l.input.drop l.pos = c :: cs) (hb : what.contains c = false) :
    l.accept what = (false, { l with width := 1 }) := by
  have hb2 : c ∉ what := by simpa using hb
  obtain ⟨nm, inp, st, po, wi, tk, er, sl, sc, li, co⟩ := l
  simp only at hd
  simp [Lexer.accept, Lexer.next, hd, hb, hb2, Lexer.backup]

lemma accept_nil_false {l : Lexer} {what : Str}
    (hd : l.input.drop l.pos = []) (hb : what.contains EOFRune = false) :
    l.accept what = (false, { l with width := 0 }) := by
  have hb2 : EOFRune ∉ what := by simpa using hb
  obtain ⟨nm, inp, st, po, wi, tk, er, sl, sc, li, co⟩ := l
  simp only at hd
  simp [Lexer.accept, Lexer.next, hd, hb, hb2, Lexer.backup]

set_option linter.unusedVariables false in
lemma stateCodeF_no_space (rec : Lexer → Lexer) {l : Lexer} {c : Char} {cs : Str}
    (hd : l.input.drop l.pos = c :: cs) (hb : tokenSpaceChars.contains c = false) :
    stateCodeF rec l = stateCodeIdent rec { l with width := 1 } := by
  rw [stateCodeF, accept_cons_false hd hb]
  rfl

set_option linter.unusedVariables false in
lemma stateCodeIdent_no (rec : Lexer → Lexer) {l : Lexer} {c : Char} {cs : Str}
    (hd : l.input.drop l.pos = c :: cs) (hb : tokenIdentifierChars.contains c = false) :
    stateCodeIdent rec l = stateCodeDigit rec { l with width := 1 } := by
  rw [stateCodeIdent, accept_cons_false hd hb]
  rfl

set_option linter.unusedVariables false in
lemma stateCodeDigit_no (rec : Lexer → Lexer) {l : Lexer} {c : Char} {cs : Str}
    (hd : l.input.drop l.pos = c :: cs) (hb : tokenDigits.contains c = false) :
    stateCodeDigit rec l = stateCodeQuote rec { l with width := 1 } := by
  rw [stateCodeDigit, accept_cons_false hd hb]
  rfl

set_option linter.unusedVariables false in
lemma stateCodeQuote_no (rec : Lexer → Lexer) {l : Lexer} {c : Char} {cs : Str}
    (hd : l.input.drop l.pos = c :: cs) (hb : (("\x22").data).contains c = false) :
    stateCodeQuote rec l = stateCodeSym rec { l with width := 1 } := by
  rw [stateCodeQuote, accept_cons_false hd hb]
  rfl

/-- In code mode, when the next character is in none of the four character
classes, control reaches the symbol-table scan with only `width` changed. -/
lemma stateCodeF_to_sym (rec : Lexer → Lexer) {l : Lexer} {c : Char} {cs : Str}
    (hd : l.input.drop l.pos = c :: cs)
    (h1 : c ∉ tokenSpaceChars) (h2 : c ∉ tokenIdentifierChars)
    (h3 : c ∉ tokenDigits) (h4 : c ≠ Char.ofNat 34) :
    stateCodeF rec l = stateCodeSym rec { l with width := 1 } := by
  rw [stateCodeF_no_space rec hd (contains_eq_false h1)]
  rw [stateCodeIdent_no rec (l := { l with width := 1 }) hd (contains_eq_false h2)]
  rw [stateCodeDigit_no rec (l := { l with width := 1 }) hd (contains_eq_false h3)]
  rw [stateCodeQuote_no rec (l := { l with width := 1 }) hd
    (contains_eq_false (by simpa using h4))]

/-- The symbol branch itself: the first matching table entry is consumed and
emitted as one Symbol token; scanning stops after a closing delimiter and
loops otherwise. -/
lemma stateCodeSym_match (rec : Lexer → Lexer) {l4 : Lexer} {sym : Str}
    (hsym : tokenSymbols.find? (fun s2 => s2.isPrefixOf (l4.input.drop l4.start)) = some sym) :
    stateCodeSym rec l4 =
      (if sym = ("%\x7d").data ∨ sym = ("\x7d\x7d").data then
        Lexer.emit { l4 with pos := l4.pos + sym.length, col := l4.col + sym.length } TokenSymbol
      else
        rec (Lexer.emit { l4 with pos := l4.pos + sym.length, col := l4.col + sym.length }
          TokenSymbol)) := by
  rw [stateCodeSym, hsym]

/-- Emitting the matched symbol appends exactly one Symbol token whose text is
the matched table entry (when `start = pos`, as maintained by code mode). -/
lemma symbol_emit_tokens {l : Lexer} {c : Char} {cs sym : Str}
    (hd : l.input.drop l.pos = c :: cs) (hsp : l.start = l.pos)
    (hpre : sym.isPrefixOf (c :: cs) = true) :
    (Lexer.emit { l with width := 1, pos := l.pos + sym.length, col := l.col + sym.length }
        TokenSymbol).tokens = l.tokens ++ [⟨TokenSymbol, sym, l.startline, l.startcol⟩] := by
  have htake : (c :: cs).take sym.length = sym := take_of_isPrefixOf hpre
  obtain ⟨nm, inp, st, po, wi, tk, er, sl, sc, li, co⟩ := l
  simp only at hd hsp htake
  subst hsp
  simp [emit_tokens, Lexer.value, hd, htake, Nat.add_sub_cancel_left]

/-! ### Code mode at end of input -/

lemma findSym_nil : tokenSymbols.find? (fun s2 => s2.isPrefixOf ([] : Str)) = none := by
  decide

set_option linter.unusedVariables false in
lemma stateCodeF_nil (rec : Lexer → Lexer) {l : Lexer}
    (hd : l.input.drop l.pos = []) :
    stateCodeF rec l = stateCodeIdent rec { l with width := 0 } := by
  rw [stateCodeF, accept_nil_false hd (by decide)]
  rfl

set_option linter.unusedVariables false in
lemma stateCodeIdent_nil (rec : Lexer → Lexer) {l : Lexer}
    (hd : l.input.drop l.pos = []) :
    stateCodeIdent rec l = stateCodeDigit rec { l with width := 0 } := by
  rw [stateCodeIdent, accept_nil_false hd (by decide)]
  rfl

set_option linter.unusedVariables false in
lemma stateCodeDigit_nil (rec : Lexer → Lexer) {l : Lexer}
    (hd : l.input.drop l.pos = []) :
    stateCodeDigit rec l = stateCodeQuote rec { l with width := 0 } := by
  rw [stateCodeDigit, accept_nil_false hd (by decide)]
  rfl

set_option linter.unusedVariables false in
lemma stateCodeQuote_nil (rec : Lexer → Lexer) {l : Lexer}
    (hd : l.input.drop l.pos = []) :
    stateCodeQuote rec l = stateCodeSym rec { l with width := 0 } := by
  rw [stateCodeQuote, accept_nil_false hd (by decide)]
  rfl

lemma stateCodeSym_none_eof (rec : Lexer → Lexer) {l4 : Lexer}
    (hd2 : l4.input.drop l4.start = []) (hp : ¬ l4.pos < l4.input.length) :
    stateCodeSym rec l4 = l4 := by
  rw [stateCodeSym, hd2, findSym_nil]
  simp [hp]

/-- Go `stateCode` at end of input with nothing pending: all four accepts
fail on EOF, no symbol matches the empty remainder, `l.pos < len(l.input)`
is false, and the loop breaks — a normal, error-free shutdown. -/
lemma stateCodeF_eof (rec : Lexer → Lexer) {l : Lexer}
    (h1 : l.input.length ≤ l.pos) (h2 : l.input.length ≤ l.start) :
    stateCodeF rec l = { l with width := 0 } := by
  have hd : l.input.drop l.pos = [] := by
    rw [List.drop_eq_nil_iff]
    exact h1
  have hd2 : ({ l with width := 0 } : Lexer).input.drop ({ l with width := 0 } : Lexer).start
      = [] := by
    show l.input.drop l.start = []
    rw [List.drop_eq_nil_iff]
    exact h2
  rw [stateCodeF_nil rec hd]
  rw [stateCodeIdent_nil rec (l := { l with width := 0 }) hd]
  rw [stateCodeDigit_nil rec (l := { l with width := 0 }) hd]
  rw [stateCodeQuote_nil rec (l := { l with width := 0 }) hd]
  rw [stateCodeSym_none_eof rec hd2 (by simp; omega)]

/-! ### Small step lemmas for next and peek -/

lemma next_cons {l : Lexer} {c : Char} {cs : Str} (hd : l.input.drop l.pos = c :: cs) :
    l.next = (c, { l with width := 1, pos := l.pos + 1 }) := by
  obtain ⟨nm, inp, st, po, wi, tk, er, sl, sc, li, co⟩ := l
  simp only at hd
  simp [Lexer.next, hd]

lemma next_nil {l : Lexer} (hd : l.input.drop l.pos = []) :
    l.next = (EOFRune, { l with width := 0 }) := by
  obtain ⟨nm, inp, st, po, wi, tk, er, sl, sc, li, co⟩ := l
  simp only at hd
  simp [Lexer.next, hd]

lemma peek_cons {l : Lexer} {c : Char} {cs : Str} (hd : l.input.drop l.pos = c :: cs) :
    l.peek = (c, { l with width := 1 }) := by
  obtain ⟨nm, inp, st, po, wi, tk, er, sl, sc, li, co⟩ := l
  simp only at hd
  simp [Lexer.peek, Lexer.next, hd, Lexer.backup]

lemma peek_nil {l : Lexer} (hd : l.input.drop l.pos = []) :
    l.peek = (EOFRune, { l with width := 0 }) := by
  obtain ⟨nm, inp, st, po, wi, tk, er, sl, sc, li, co⟩ := l
  simp only at hd
  simp [Lexer.peek, Lexer.next, hd, Lexer.backup]

lemma errorf_tokens (l : Lexer) (msg : Str) :
    (l.errorf msg).tokens = l.tokens ++ [⟨TokenError, msg, l.startline, l.startcol⟩] := rfl

/-! ### The EOF rune inside a string literal -/

/-- Inside the scan loop of Go `stateString`, a U+0001 input character compares
equal to the EOF sentinel: the loop raises the string-not-closed error even
though input (`rest`, which may hold the closing quote) remains. -/
lemma stringLoop_sentinel {l : Lexer} {rest : Str} (fuel : Nat)
    (hd : l.input.drop l.pos = EOFRune :: rest) :
    stringLoop (fuel + 1) l =
      (Lexer.errorf { l with width := 1, pos := l.pos + 1 } msgStrNotClosed, true) := by
  rw [stringLoop.eq_2, accept_cons_false hd (by decide),
    next_cons (l := { l with width := 1 }) hd]
  rfl

/-! ### Text-mode stepping -/

lemma isPrefixOf_cons_of_ne {a b : Char} (as bs : Str) (h : a ≠ b) :
    (a :: as).isPrefixOf (b :: bs) = false := by
  have hb : (a == b) = false := by simpa using h
  simp [List.isPrefixOf, hb]

lemma brace_noPre {c : Char} {cs tail2 : Str} (h : c ≠ Char.ofNat 123) :
    (Char.ofNat 123 :: tail2).isPrefixOf (c :: cs) = false :=
  isPrefixOf_cons_of_ne _ _ (fun hEq => h hEq.symm)

set_option linter.unusedVariables false in
lemma runStep_text_cons (rec : Lexer → Lexer) {l : Lexer} {c : Char} {cs : Str}
    (hd : l.input.drop l.pos = c :: cs) (hbrace : c ≠ Char.ofNat 123)
    (hnotEOF : c ≠ EOFRune) :
    runStep rec l = rec (if c = ('\n' : Char) then
        { l with width := 1, pos := l.pos + 1, line := l.line + 1, col := 1 }
      else { l with width := 1, pos := l.pos + 1, col := l.col + 1 }) := by
  have hp1 : (("\x7b#").data).isPrefixOf (c :: cs) = false := brace_noPre hbrace
  have hp2 : (("\x7b\x7b").data).isPrefixOf (c :: cs) = false := brace_noPre hbrace
  have hp3 : (("\x7b%").data).isPrefixOf (c :: cs) = false := brace_noPre hbrace
  have hne2 : ('\n' : Char) ≠ EOFRune := by decide
  by_cases hc : c = ('\n' : Char)
  · obtain ⟨nm, inp, st, po, wi, tk, er, sl, sc, li, co⟩ := l
    simp only at hd
    simp [runStep, runText, hd, hp1, hp2, hp3, Lexer.peek, Lexer.next, Lexer.backup, hc, hnotEOF, hne2]
  · obtain ⟨nm, inp, st, po, wi, tk, er, sl, sc, li, co⟩ := l
    simp only at hd
    simp [runStep, runText, hd, hp1, hp2, hp3, Lexer.peek, Lexer.next, Lexer.backup, hc, hnotEOF]

set_option linter.unusedVariables false in
lemma runStep_text_nil (rec : Lexer → Lexer) {l : Lexer}
    (hd : l.input.drop l.pos = []) :
    runStep rec l =
      (if l.start < l.pos then
        Lexer.emit { l with width := 0, col := l.col + 1 } TokenHTML
      else { l with width := 0, col := l.col + 1 }) := by
  have hne1 : EOFRune ≠ ('\n' : Char) := by decide
  obtain ⟨nm, inp, st, po, wi, tk, er, sl, sc, li, co⟩ := l
  simp only at hd
  by_cases hs : st < po
  · simp [runStep, runText, hd, Lexer.peek, Lexer.next, Lexer.backup, hs, hne1]
  · simp [runStep, runText, hd, Lexer.peek, Lexer.next, Lexer.backup, hs, hne1]

set_option linter.unusedVariables false in
lemma runStep_sentinel (rec : Lexer → Lexer) {l : Lexer} {rest : Str}
    (hd : l.input.drop l.pos = EOFRune :: rest) :
    runStep rec l =
      (if l.start < l.pos + 1 then
        Lexer.emit { l with width := 1, pos := l.pos + 1, col := l.col + 1 } TokenHTML
      else { l with width := 1, pos := l.pos + 1, col := l.col + 1 }) := by
  have hp1 : (("\x7b#").data).isPrefixOf (EOFRune :: rest) = false :=
    brace_noPre (by decide)
  have hp2 : (("\x7b\x7b").data).isPrefixOf (EOFRune :: rest) = false :=
    brace_noPre (by decide)
  have hp3 : (("\x7b%").data).isPrefixOf (EOFRune :: rest) = false :=
    brace_noPre (by decide)
  have hne1 : EOFRune ≠ ('\n' : Char) := by decide
  obtain ⟨nm, inp, st, po, wi, tk, er, sl, sc, li, co⟩ := l
  simp only at hd
  by_cases hs : st < po + 1
  · simp [runStep, runText, hd, hp1, hp2, hp3, Lexer.peek, Lexer.next, Lexer.backup, hs, hne1]
  · simp [runStep, runText, hd, hp1, hp2, hp3, Lexer.peek, Lexer.next, Lexer.backup, hs, hne1]

/-! ### Text-mode runs -/

/-- Go `run` over a remainder free of braces and of the EOF rune: the loop
only takes the plain-text branch, consumes everything, and emits the pending
span as a single HTML token; no error can occur. -/
lemma runAux_plain (fuel : Nat) : ∀ (l : Lexer),
    (∀ c2 ∈ l.input.drop l.pos, c2 ≠ Char.ofNat 123 ∧ c2 ≠ EOFRune) →
    l.pos ≤ l.input.length →
    l.input.length + 2 ≤ fuel + l.pos →
    (runAux fuel l).tokens = l.tokens ++
      (if l.start < l.input.length then
        [⟨TokenHTML, (l.input.drop l.start).take (l.input.length - l.start),
          l.startline, l.startcol⟩]
      else []) ∧
    (runAux fuel l).errored = l.errored := by
  induction fuel with
  | zero => intro l h1 h2 h3; omega
  | succ f ih =>
    intro l hmem hpos hfuel
    cases hd : l.input.drop l.pos with
    | nil =>
      have hplen : l.input.length ≤ l.pos := by
        rw [← List.drop_eq_nil_iff]
        exact hd
      have hpe : l.pos = l.input.length := by omega
      rw [runAux.eq_2, runStep_text_nil _ hd]
      rw [hpe]
      by_cases hs : l.start < l.input.length
      · simp [hs, Lexer.emit, Lexer.value]
      · simp [hs]
    | cons c cs =>
      have hc := hmem c (by rw [hd]; exact List.mem_cons_self c cs)
      have hlt : l.pos < l.input.length := lt_length_of_drop_cons hd
      have hdrop2 : l.input.drop (l.pos + 1) = cs := drop_succ_eq hd
      rw [runAux.eq_2, runStep_text_cons _ hd hc.1 hc.2]
      by_cases hn : c = ('\n' : Char)
      · rw [if_pos hn]
        have ihres := ih { l with width := 1, pos := l.pos + 1, line := l.line + 1, col := 1 }
          (by
            simp only [hdrop2]
            intro c2 hc2
            exact hmem c2 (by rw [hd]; exact List.mem_cons_of_mem c hc2))
          (by simp; omega) (by simp; omega)
        simpa using ihres
      · rw [if_neg hn]
        have ihres := ih { l with width := 1, pos := l.pos + 1, col := l.col + 1 }
          (by
            simp only [hdrop2]
            intro c2 hc2
            exact hmem c2 (by rw [hd]; exact List.mem_cons_of_mem c hc2))
          (by simp; omega) (by simp; omega)
        simpa using ihres

/-- Go `run` in text mode when the remaining input holds an EOF-rune
character (U+0001) after a plain span `mid`: the scan consumes `mid` and the
U+0001 itself, then stops as if at end of input, emitting the pending span
(which ends at the U+0001) as one HTML token; everything in `rest` — which
may be arbitrary further input — is never reached, and no error occurs. -/
lemma runAux_sentinel : ∀ (mid : Str) (fuel : Nat) (l : Lexer) (rest : Str),
    l.input.drop l.pos = mid ++ EOFRune :: rest →
    (∀ c2 ∈ mid, c2 ≠ Char.ofNat 123 ∧ c2 ≠ EOFRune) →
    mid.length + 1 ≤ fuel →
    (runAux fuel l).tokens = l.tokens ++
      (if l.start < l.pos + mid.length + 1 then
        [⟨TokenHTML, (l.input.drop l.start).take (l.pos + mid.length + 1 - l.start),
          l.startline, l.startcol⟩]
      else []) ∧
    (runAux fuel l).errored = l.errored := by
  intro mid
  induction mid with
  | nil =>
    intro fuel l rest hd hmem hfuel
    cases fuel with
    | zero => omega
    | succ f =>
      simp only [List.nil_append] at hd
      rw [runAux.eq_2, runStep_sentinel _ hd]
      simp only [List.length_nil, Nat.add_zero]
      by_cases hs : l.start < l.pos + 1
      · simp [hs, Lexer.emit, Lexer.value]
      · simp [hs]
  | cons m ms ih =>
    intro fuel l rest hd hmem hfuel
    cases fuel with
    | zero => simp at hfuel
    | succ f =>
      simp only [List.cons_append] at hd
      have hm := hmem m (List.mem_cons_self m ms)
      have hdrop2 : l.input.drop (l.pos + 1) = ms ++ EOFRune :: rest := drop_succ_eq hd
      rw [runAux.eq_2, runStep_text_cons _ hd hm.1 hm.2]
      simp only [List.length_cons]
      by_cases hn : m = ('\n' : Char)
      · rw [if_pos hn]
        have ihres := ih f { l with width := 1, pos := l.pos + 1, line := l.line + 1, col := 1 }
          rest (by simpa using hdrop2)
          (fun c2 hc2 => hmem c2 (List.mem_cons_of_mem m hc2))
          (by simp at hfuel; omega)
        simp only at ihres
        have e : l.pos + 1 + ms.length + 1 = l.pos + (ms.length + 1) + 1 := by omega
        rw [e] at ihres
        simpa using ihres
      · rw [if_neg hn]
        have ihres := ih f { l with width := 1, pos := l.pos + 1, col := l.col + 1 }
          rest (by simpa using hdrop2)
          (fun c2 hc2 => hmem c2 (List.mem_cons_of_mem m hc2))
          (by simp at hfuel; omega)
        simp only at ihres
        have e : l.pos + 1 + ms.length + 1 = l.pos + (ms.length + 1) + 1 := by omega
        rw [e] at ihres
        simpa using ihres

/-! ### Error-path invariants -/

/-- No token of the list is an error token. -/
def noErrTok (ts : List Token) : Prop := ∀ t ∈ ts, t.typ ≠ TokenError

/-- All four position counters are at least 1 (they are 1-based). -/
def posOk (l : Lexer) : Prop :=
  1 ≤ l.line ∧ 1 ≤ l.col ∧ 1 ≤ l.startline ∧ 1 ≤ l.startcol

/-- A healthy scanner state: 1-based counters, not errored, no error token. -/
def goodSt (l : Lexer) : Prop := posOk l ∧ l.errored = false ∧ noErrTok l.tokens

/-- A failed scanner state: the token list is exactly the previously emitted
ordinary tokens followed by one error token with 1-based position and a
nonempty message. -/
def errSt (l : Lexer) : Prop :=
  posOk l ∧ l.errored = true ∧
    ∃ pre t, l.tokens = pre ++ [t] ∧ noErrTok pre ∧ t.typ = TokenError ∧
      1 ≤ t.line ∧ 1 ≤ t.col ∧ t.val ≠ []

/-- Every state the scanner can be in is healthy or cleanly failed. -/
def okOrErr (l : Lexer) : Prop := goodSt l ∨ errSt l

lemma goodSt_next {l : Lexer} (h : goodSt l) : goodSt (l.next).2 := by
  obtain ⟨nm, inp, st, po, wi, tk, er, sl, sc, li, co⟩ := l
  cases hd : List.drop po inp with
  | nil => simpa [Lexer.next, hd, goodSt, posOk, noErrTok] using h
  | cons c cs => simpa [Lexer.next, hd, goodSt, posOk, noErrTok] using h

lemma goodSt_backup {l : Lexer} (h : goodSt l) : goodSt l.backup := by
  obtain ⟨nm, inp, st, po, wi, tk, er, sl, sc, li, co⟩ := l
  simpa [Lexer.backup, goodSt, posOk, noErrTok] using h

lemma goodSt_peek {l : Lexer} (h : goodSt l) : goodSt (l.peek).2 :=
  goodSt_backup (goodSt_next h)

lemma goodSt_ignore {l : Lexer} (h : goodSt l) : goodSt l.ignore := by
  obtain ⟨nm, inp, st, po, wi, tk, er, sl, sc, li, co⟩ := l
  simpa [Lexer.ignore, goodSt, posOk, noErrTok] using h

lemma goodSt_accept {l : Lexer} (what : Str) (h : goodSt l) : goodSt (l.accept what).2 := by
  unfold Lexer.accept
  by_cases hc : (l.next).1 ∈ what
  · simpa [hc] using goodSt_next h
  · simpa [hc] using goodSt_backup (goodSt_next h)

lemma goodSt_acceptRun {l : Lexer} (what : Str) (hw : EOFRune ∉ what) (h : goodSt l) :
    goodSt (l.acceptRun what) := by
  rw [acceptRun_spec l what hw]
  obtain ⟨nm, inp, st, po, wi, tk, er, sl, sc, li, co⟩ := l
  simpa [goodSt, posOk, noErrTok] using h

lemma goodSt_emit {l : Lexer} {t : Nat} (h : goodSt l) (ht : t ≠ TokenError) :
    goodSt (l.emit t) := by
  obtain ⟨hp, he, hn⟩ := h
  refine ⟨⟨hp.1, hp.2.1, hp.1, hp.2.1⟩, he, ?_⟩
  intro t2 ht2
  simp [Lexer.emit] at ht2
  rcases ht2 with ht2 | ht2
  · exact hn t2 ht2
  · rw [ht2]
    exact ht

lemma errSt_errorf {l : Lexer} {msg : Str} (h : goodSt l) (hm : msg ≠ []) :
    errSt (l.errorf msg) := by
  obtain ⟨hp, he, hn⟩ := h
  refine ⟨⟨hp.1, hp.2.1, hp.1, hp.2.1⟩, rfl, l.tokens, ⟨TokenError, msg, l.startline, l.startcol⟩,
    rfl, hn, rfl, hp.2.2.1, hp.2.2.2, hm⟩

lemma unknownCharMsg_ne_nil (c : Char) : unknownCharMsg c ≠ [] := by
  intro h
  have h2 := congrArg List.length h
  simp [unknownCharMsg] at h2

lemma goodSt_linecol {l : Lexer} {li co : Nat} (h : goodSt l) (h1 : 1 ≤ li) (h2 : 1 ≤ co) :
    goodSt { l with line := li, col := co } := by
  obtain ⟨nm, inp, st, po, wi, tk, er, sl, sc, li0, co0⟩ := l
  obtain ⟨hp, he, hn⟩ := h
  exact ⟨⟨h1, h2, hp.2.2.1, hp.2.2.2⟩, he, hn⟩

lemma goodSt_col {l : Lexer} {co : Nat} (h : goodSt l) (h2 : 1 ≤ co) :
    goodSt { l with col := co } := by
  obtain ⟨nm, inp, st, po, wi, tk, er, sl, sc, li0, co0⟩ := l
  obtain ⟨hp, he, hn⟩ := h
  exact ⟨⟨hp.1, h2, hp.2.2.1, hp.2.2.2⟩, he, hn⟩

lemma goodSt_poscol {l : Lexer} {p co : Nat} (h : goodSt l) (h2 : 1 ≤ co) :
    goodSt { l with pos := p, col := co } := by
  obtain ⟨nm, inp, st, po, wi, tk, er, sl, sc, li0, co0⟩ := l
  obtain ⟨hp, he, hn⟩ := h
  exact ⟨⟨hp.1, h2, hp.2.2.1, hp.2.2.2⟩, he, hn⟩

lemma posOk_col_ge {l : Lexer} (h : goodSt l) : 1 ≤ l.col := h.1.2.1

lemma stringLoop_inv (fuel : Nat) : ∀ l : Lexer, goodSt l →
    ((stringLoop fuel l).2 = false → goodSt (stringLoop fuel l).1) ∧
    ((stringLoop fuel l).2 = true → errSt (stringLoop fuel l).1) := by
  induction fuel with
  | zero =>
    intro l h
    constructor
    · intro _
      exact h
    · intro hc
      simp [stringLoop] at hc
  | succ f ih =>
    intro l h
    rw [stringLoop.eq_2]
    by_cases h1 : (l.accept (("\x22").data)).1 = true
    · constructor
      · intro _
        simpa [h1] using goodSt_accept _ h
      · intro hc
        simp [h1] at hc
    · by_cases h2 : ((l.accept (("\x22").data)).2.next).1 = EOFRune
      · constructor
        · intro hc
          simp [h1, h2] at hc
        · intro _
          simpa [h1, h2] using
            errSt_errorf (goodSt_next (goodSt_accept _ h)) (by decide)
      · have ihres := ih ((l.accept (("\x22").data)).2.next).2 (goodSt_next (goodSt_accept _ h))
        constructor
        · intro hc
          simp only [Bool.not_eq_true] at h1
          simp [h1, h2] at hc ⊢
          exact ihres.1 hc
        · intro hc
          simp only [Bool.not_eq_true] at h1
          simp [h1, h2] at hc ⊢
          exact ihres.2 hc

lemma commentLoop_inv (fuel : Nat) : ∀ l : Lexer, goodSt l →
    ((commentLoop fuel l).2 = false → goodSt (commentLoop fuel l).1) ∧
    ((commentLoop fuel l).2 = true → errSt (commentLoop fuel l).1) := by
  induction fuel with
  | zero =>
    intro l h
    constructor
    · intro _
      exact h
    · intro hc
      simp [commentLoop] at hc
  | succ f ih =>
    intro l h
    rw [commentLoop.eq_2]
    by_cases h1 : (l.peek).1 = EOFRune
    · constructor
      · intro hc
        simp [h1] at hc
      · intro _
        simpa [h1] using errSt_errorf (goodSt_peek h) (by decide)
    · by_cases h2 : (l.peek).1 = ('\n' : Char)
      · have hne : ¬ (('\n' : Char) = EOFRune) := by decide
        constructor
        · intro hc
          simp [h1, h2, hne] at hc
        · intro _
          simpa [h1, h2, hne] using errSt_errorf (goodSt_peek h) (by decide)
      · by_cases h3 : (("#\x7d").data).isPrefixOf ((l.peek).2.input.drop (l.peek).2.pos) = true
        · constructor
          · intro _
            simpa [h1, h2, h3] using
              goodSt_poscol (goodSt_peek h) (by
                have := posOk_col_ge (goodSt_peek h)
                omega)
          · intro hc
            simp [h1, h2, h3] at hc
        · have ihres := ih { (l.peek).2 with pos := (l.peek).2.pos + 1, col := (l.peek).2.col + 1 }
            (goodSt_poscol (goodSt_peek h) (by
              have := posOk_col_ge (goodSt_peek h)
              omega))
          constructor
          · intro hc
            simp only [Bool.not_eq_true] at h3
            simp [h1, h2, h3] at hc ⊢
            exact ihres.1 hc
          · intro hc
            simp only [Bool.not_eq_true] at h3
            simp [h1, h2, h3] at hc ⊢
            exact ihres.2 hc

lemma goodSt_poswidth {l : Lexer} {p w : Nat} (h : goodSt l) :
    goodSt { l with pos := p, width := w } := by
  obtain ⟨nm, inp, st, po, wi, tk, er, sl, sc, li0, co0⟩ := l
  exact h

lemma stateIdentifier_inv {l : Lexer} (h : goodSt l) : goodSt (stateIdentifier l) := by
  unfold stateIdentifier
  simp only [acceptRun_spec _ _ (show EOFRune ∉ tokenIdentifierChars by decide),
    acceptRun_spec _ _ (show EOFRune ∉ tokenDigits by decide)]
  split
  · exact goodSt_emit (goodSt_poswidth (goodSt_poswidth h))
      (show TokenKeyword ≠ TokenError by decide)
  · refine goodSt_emit (goodSt_col (goodSt_poswidth (goodSt_poswidth h)) ?_)
      (show TokenIdentifier ≠ TokenError by decide)
    have hcl := posOk_col_ge h
    simp
    omega

lemma stateNumber_inv {l : Lexer} (h : goodSt l) : goodSt (stateNumber l) := by
  unfold stateNumber
  simp only [acceptRun_spec _ _ (show EOFRune ∉ tokenDigits by decide)]
  refine goodSt_emit (goodSt_col (goodSt_poswidth h) ?_)
    (show TokenNumber ≠ TokenError by decide)
  have hcl := posOk_col_ge h
  simp
  omega

lemma stateString_inv {l : Lexer} (h : goodSt l) :
    ((stateString l).2 = true → goodSt (stateString l).1) ∧
    ((stateString l).2 = false → errSt (stateString l).1) := by
  unfold stateString
  have hig : goodSt l.ignore := goodSt_ignore h
  have hloop := stringLoop_inv ((l.ignore.input.length - l.ignore.pos) + 2) l.ignore hig
  by_cases hr : (stringLoop ((l.ignore.input.length - l.ignore.pos) + 2) l.ignore).2 = true
  · constructor
    · intro hc
      simp [hr] at hc
    · intro _
      simpa [hr] using hloop.2 hr
  · simp only [Bool.not_eq_true] at hr
    have hgood := hloop.1 hr
    constructor
    · intro _
      simp only [hr]
      simp only [Bool.false_eq_true, if_false]
      refine goodSt_ignore (goodSt_next ?_)
      refine goodSt_emit ?_ (by decide)
      refine goodSt_col (goodSt_backup hgood) ?_
      have := posOk_col_ge (goodSt_backup hgood)
      omega
    · intro hc
      simp [hr] at hc

lemma stateCodeSym_inv {rec : Lexer → Lexer}
    (hrec : ∀ l2, goodSt l2 → okOrErr (rec l2)) :
    ∀ l4, goodSt l4 → okOrErr (stateCodeSym rec l4) := by
  intro l4 h
  unfold stateCodeSym
  cases hfind : tokenSymbols.find? (fun sym => sym.isPrefixOf (l4.input.drop l4.start)) with
  | none =>
    by_cases hp : l4.pos < l4.input.length
    · simp only [hp, if_true]
      exact Or.inr (errSt_errorf (goodSt_peek h) (unknownCharMsg_ne_nil _))
    · simp only [hp, if_false]
      exact Or.inl h
  | some sym =>
    have hgood : goodSt (Lexer.emit
        { l4 with pos := l4.pos + sym.length, col := l4.col + sym.length } TokenSymbol) := by
      refine goodSt_emit (goodSt_poscol h ?_) (show TokenSymbol ≠ TokenError by decide)
      have := posOk_col_ge h
      omega
    by_cases hcl : sym = ("%\x7d").data ∨ sym = ("\x7d\x7d").data
    · simp only [hcl, if_true]
      exact Or.inl hgood
    · simp only [hcl, if_false]
      exact hrec _ hgood

lemma stateCodeQuote_inv {rec : Lexer → Lexer}
    (hrec : ∀ l2, goodSt l2 → okOrErr (rec l2)) :
    ∀ l3, goodSt l3 → okOrErr (stateCodeQuote rec l3) := by
  intro l3 h
  unfold stateCodeQuote
  by_cases ha : (l3.accept (("\x22").data)).1 = true
  · simp only [ha, if_true]
    have hs := stateString_inv (goodSt_accept (("\x22").data) h)
    by_cases hr : (stateString (l3.accept (("\x22").data)).2).2 = true
    · simp only [hr, if_true]
      exact hrec _ (hs.1 hr)
    · simp only [Bool.not_eq_true] at hr
      simp only [hr, Bool.false_eq_true, if_false]
      exact Or.inr (hs.2 hr)
  · simp only [Bool.not_eq_true] at ha
    simp only [ha, Bool.false_eq_true, if_false]
    exact stateCodeSym_inv hrec _ (goodSt_accept (("\x22").data) h)

lemma stateCodeDigit_inv {rec : Lexer → Lexer}
    (hrec : ∀ l2, goodSt l2 → okOrErr (rec l2)) :
    ∀ l2, goodSt l2 → okOrErr (stateCodeDigit rec l2) := by
  intro l2 h
  unfold stateCodeDigit
  by_cases ha : (l2.accept tokenDigits).1 = true
  · simp only [ha, if_true]
    exact hrec _ (stateNumber_inv (goodSt_accept tokenDigits h))
  · simp only [Bool.not_eq_true] at ha
    simp only [ha, Bool.false_eq_true, if_false]
    exact stateCodeQuote_inv hrec _ (goodSt_accept tokenDigits h)

lemma stateCodeIdent_inv {rec : Lexer → Lexer}
    (hrec : ∀ l2, goodSt l2 → okOrErr (rec l2)) :
    ∀ l1, goodSt l1 → okOrErr (stateCodeIdent rec l1) := by
  intro l1 h
  unfold stateCodeIdent
  by_cases ha : (l1.accept tokenIdentifierChars).1 = true
  · simp only [ha, if_true]
    exact hrec _ (stateIdentifier_inv (goodSt_accept tokenIdentifierChars h))
  · simp only [Bool.not_eq_true] at ha
    simp only [ha, Bool.false_eq_true, if_false]
    exact stateCodeDigit_inv hrec _ (goodSt_accept tokenIdentifierChars h)

lemma stateCodeF_inv {rec : Lexer → Lexer}
    (hrec : ∀ l2, goodSt l2 → okOrErr (rec l2)) :
    ∀ l, goodSt l → okOrErr (stateCodeF rec l) := by
  intro l h
  unfold stateCodeF
  by_cases ha : (l.accept tokenSpaceChars).1 = true
  · simp only [ha, if_true]
    have hg : goodSt (l.accept tokenSpaceChars).2 := goodSt_accept tokenSpaceChars h
    by_cases hv : Lexer.value (l.accept tokenSpaceChars).2 = [('\n' : Char)]
    · simp only [hv, if_true]
      exact hrec _ (goodSt_ignore (goodSt_linecol hg (by
        have := hg.1.1
        omega) (by omega)))
    · simp only [hv, if_false]
      exact hrec _ (goodSt_ignore (goodSt_col hg (by
        have := posOk_col_ge hg
        omega)))
  · simp only [Bool.not_eq_true] at ha
    simp only [ha, Bool.false_eq_true, if_false]
    exact stateCodeIdent_inv hrec _ (goodSt_accept tokenSpaceChars h)

lemma stateCode_inv (fuel : Nat) : ∀ l, goodSt l → okOrErr (stateCode fuel l) := by
  induction fuel with
  | zero =>
    intro l h
    exact Or.inl h
  | succ f ih =>
    intro l h
    rw [stateCode.eq_2]
    exact stateCodeF_inv ih l h

lemma goodSt_emitIf {l : Lexer} (h : goodSt l) :
    goodSt (if l.start < l.pos then l.emit TokenHTML else l) := by
  by_cases hs : l.start < l.pos
  · simp only [hs, if_true]
    exact goodSt_emit h (show TokenHTML ≠ TokenError by decide)
  · simp only [hs, if_false]
    exact h

lemma runCommentCore_inv {rec : Lexer → Lexer}
    (hrec : ∀ l2, goodSt l2 → okOrErr (rec l2)) {l1 : Lexer} (hg1 : goodSt l1) :
    okOrErr
      (let l2 : Lexer := { l1 with pos := l1.pos + 2, col := l1.col + 2 };
       let r := commentLoop ((l2.input.length - l2.pos) + 2) l2;
       if r.2 then r.1 else rec r.1.ignore) := by
  have hg2 : goodSt { l1 with pos := l1.pos + 2, col := l1.col + 2 } := by
    refine goodSt_poscol hg1 ?_
    have := posOk_col_ge hg1
    omega
  simp only []
  split
  · rename_i hr
    exact Or.inr ((commentLoop_inv _ _ hg2).2 hr)
  · rename_i hr
    simp only [Bool.not_eq_true] at hr
    exact hrec _ (goodSt_ignore ((commentLoop_inv _ _ hg2).1 hr))

lemma runComment_inv {rec : Lexer → Lexer}
    (hrec : ∀ l2, goodSt l2 → okOrErr (rec l2)) :
    ∀ l, goodSt l → okOrErr (runComment rec l) := by
  intro l h
  unfold runComment
  by_cases hs : l.start < l.pos
  · simp only [hs, if_true]
    exact runCommentCore_inv hrec (goodSt_emit h (show TokenHTML ≠ TokenError by decide))
  · simp only [hs, if_false]
    exact runCommentCore_inv hrec h

lemma runTagCore_inv {rec : Lexer → Lexer}
    (hrec : ∀ l2, goodSt l2 → okOrErr (rec l2)) {l1 : Lexer} (hg1 : goodSt l1) :
    okOrErr
      (let l2 := l1.tokenize;
       if l2.errored then l2 else rec l2) := by
  have htok := stateCode_inv (l1.input.length + 4) l1 hg1
  simp only []
  split
  · rename_i he
    rcases htok with hgood | herr
    · exfalso
      unfold Lexer.tokenize at he
      rw [hgood.2.1] at he
      simp at he
    · exact Or.inr herr
  · rename_i he
    rcases htok with hgood | herr
    · exact hrec _ hgood
    · exfalso
      unfold Lexer.tokenize at he
      rw [herr.2.1] at he
      simp at he

lemma runTag_inv {rec : Lexer → Lexer}
    (hrec : ∀ l2, goodSt l2 → okOrErr (rec l2)) :
    ∀ l, goodSt l → okOrErr (runTag rec l) := by
  intro l h
  unfold runTag
  by_cases hs : l.start < l.pos
  · simp only [hs, if_true]
    exact runTagCore_inv hrec (goodSt_emit h (show TokenHTML ≠ TokenError by decide))
  · simp only [hs, if_false]
    exact runTagCore_inv hrec h

lemma runText_inv {rec : Lexer → Lexer}
    (hrec : ∀ l2, goodSt l2 → okOrErr (rec l2)) :
    ∀ l, goodSt l → okOrErr (runText rec l) := by
  intro l h
  unfold runText
  have hg1 : goodSt (l.peek).2 := goodSt_peek h
  by_cases hn : (l.peek).1 = ('\n' : Char)
  · simp only [hn, if_true]
    have hg2 : goodSt { (l.peek).2 with line := (l.peek).2.line + 1, col := 1 } :=
      goodSt_linecol hg1 (by
        have := hg1.1.1
        omega) (by omega)
    split
    · exact Or.inl (goodSt_emitIf (goodSt_next hg2))
    · exact hrec _ (goodSt_next hg2)
  · simp only [hn, if_false]
    have hg2 : goodSt { (l.peek).2 with col := (l.peek).2.col + 1 } :=
      goodSt_col hg1 (by
        have := posOk_col_ge hg1
        omega)
    split
    · exact Or.inl (goodSt_emitIf (goodSt_next hg2))
    · exact hrec _ (goodSt_next hg2)

lemma runStep_inv {rec : Lexer → Lexer}
    (hrec : ∀ l2, goodSt l2 → okOrErr (rec l2)) :
    ∀ l, goodSt l → okOrErr (runStep rec l) := by
  intro l h
  unfold runStep
  split
  · exact runComment_inv hrec l h
  · split
    · exact runTag_inv hrec l h
    · exact runText_inv hrec l h

lemma runAux_inv (fuel : Nat) : ∀ l, goodSt l → okOrErr (runAux fuel l) := by
  induction fuel with
  | zero =>
    intro l h
    exact Or.inl h
  | succ f ih =>
    intro l h
    rw [runAux.eq_2]
    exact runStep_inv ih l h

lemma lexRun_okOrErr (nm s : Str) : okOrErr (lexRun nm s) := by
  unfold lexRun Lexer.run
  apply runAux_inv
  refine ⟨⟨le_refl 1, le_refl 1, le_refl 1, le_refl 1⟩, rfl, ?_⟩
  intro t ht
  simp at ht

lemma lex_err_facts {nm s : Str} {e : LexError} (h : lex nm s = .err e) :
    e.name = nm ∧ 1 ≤ e.line ∧ 1 ≤ e.col ∧ e.msg ≠ [] ∧
    (lexRun nm s).tokens.countP (fun t => t.typ == TokenError) = 1 := by
  rcases lexRun_okOrErr nm s with hgood | herr
  · exfalso
    unfold lex at h
    simp only [] at h
    rw [hgood.2.1] at h
    simp at h
  · obtain ⟨hp, he, pre, t, htok, hnp, hterr, htl, htc, htv⟩ := herr
    unfold lex at h
    simp only [] at h
    rw [he, htok, List.getLast?_concat] at h
    simp only [if_true] at h
    have hcount : (lexRun nm s).tokens.countP (fun t2 => t2.typ == TokenError) = 1 := by
      rw [htok, List.countP_append]
      have h0 : pre.countP (fun t2 => t2.typ == TokenError) = 0 :=
        List.countP_eq_zero.mpr (fun t2 ht2 => by simpa using hnp t2 ht2)
      have h1 : [t].countP (fun t2 => t2.typ == TokenError) = 1 := by
        simp [List.countP_cons, hterr]
      rw [h0, h1]
    simp only [LexResult.err.injEq] at h
    rw [← h]
    exact ⟨rfl, htl, htc, htv, hcount⟩

/-! ## Claim theorems -/

/-- Claim C1, counterexample: the round-trip fails as stated.  The input
consisting of an expression tag with a space between its delimiters scans
successfully to two Symbol tokens, but concatenating their texts drops the
discarded code-mode whitespace, so the input is not reproduced. -/
theorem c1_roundTrip_cex :
    lex (("t").data) (("\x7b\x7b \x7d\x7d").data) =
      .ok [⟨TokenSymbol, ("\x7b\x7b").data, 1, 1⟩, ⟨TokenSymbol, ("\x7d\x7d").data, 1, 3⟩] ∧
    concatTokens [⟨TokenSymbol, ("\x7b\x7b").data, 1, 1⟩, ⟨TokenSymbol, ("\x7d\x7d").data, 1, 3⟩]
      ≠ ("\x7b\x7b \x7d\x7d").data := by
  decide

/-- Claim C1, amended: for every name and every input containing no left
brace (so no comment or tag construct, whose interior whitespace and comment
text the scanner discards) and no U+0001 character, `lex` succeeds and
concatenating the texts of the returned tokens (with quotes reinserted
around String tokens) reproduces the input exactly. -/
theorem c1_roundTrip_amended (nm s : Str)
    (h : ∀ c ∈ s, c ≠ Char.ofNat 123 ∧ c ≠ EOFRune) :
    lex nm s = .ok ((lexRun nm s).tokens) ∧
    concatTokens ((lexRun nm s).tokens) = s := by
  have hrun := runAux_plain (s.length + 4)
    { name := nm, input := s, start := 0, pos := 0, width := 0, tokens := [],
      errored := false, startline := 1, startcol := 1, line := 1, col := 1 }
    (by simpa using h) (by simp) (by simp)
  simp only [List.drop_zero, List.nil_append, Nat.sub_zero, List.take_length] at hrun
  have htoks : (lexRun nm s).tokens =
      (if 0 < s.length then [⟨TokenHTML, s, 1, 1⟩] else []) := hrun.1
  have herr : (lexRun nm s).errored = false := hrun.2
  constructor
  · unfold lex
    simp only []
    rw [herr]
    simp
  · rw [htoks]
    by_cases hs : 0 < s.length
    · simp only [hs, if_true]
      simp [concatTokens, tokenText, TokenHTML, TokenString]
    · simp only [hs, if_false]
      have : s = [] := List.length_eq_zero.mp (by omega)
      simp [concatTokens, this]

/-- Claim C1, witness: the brace-free input "ab" round-trips. -/
theorem c1_roundTrip_witness :
    lex (("t").data) (("ab").data) = .ok ((lexRun (("t").data) (("ab").data)).tokens) ∧
    concatTokens ((lexRun (("t").data) (("ab").data)).tokens) = ("ab").data :=
  c1_roundTrip_amended (("t").data) (("ab").data) (by decide)

/-- Claim C2: evaluating the scanner on "A\x7b# note #\x7dB" shows the
comment is transparent (two HTML tokens, no comment token), but the recorded
position of the "B" token is column 2 — the column reached when "A" was
emitted — not column 12: `ignore()` discards the comment without updating
`startcol`, so the claimed position accounting does not happen. -/
theorem c2_commentPositions :
    lex (("t").data) (("A\x7b# note #\x7dB").data) =
      .ok [⟨TokenHTML, ("A").data, 1, 1⟩, ⟨TokenHTML, ("B").data, 1, 2⟩] := by
  decide

/-- Claim C3: evaluating the scanner on the example given in the spec,
"Hello \x7b\x7b name \x7d\x7d!" shows recorded columns that do not match the
true first-character columns: Identifier "name" is recorded at column 9
(true column 10) and Symbol "\x7d\x7d" at column 14 (true column 15),
because skipping code-mode whitespace does not refresh `startcol`. -/
theorem c3_tokenPositions :
    lex (("t").data) (("Hello \x7b\x7b name \x7d\x7d!").data) =
      .ok [⟨TokenHTML, ("Hello ").data, 1, 1⟩, ⟨TokenSymbol, ("\x7b\x7b").data, 1, 7⟩,
        ⟨TokenIdentifier, ("name").data, 1, 9⟩, ⟨TokenSymbol, ("\x7d\x7d").data, 1, 14⟩,
        ⟨TokenHTML, ("!").data, 1, 17⟩] := by
  decide

/-- Claim C4: in code mode, when the next character is not whitespace, not an
identifier-start character, not a digit and not a double quote, and `sym` is
the first entry of the symbol table whose text prefixes the remaining input,
then one step of the state machine consumes `sym` and emits it as a single
Symbol token (stopping if it is a closing delimiter, looping otherwise); in
particular a two-character symbol is emitted as one token, as the scan of
"\x7b\x7ba==b\x7d\x7d" shows for "==". -/
theorem c4_symbolTable (fuel : Nat) (l : Lexer) (c : Char) (cs sym : Str)
    (hd : l.input.drop l.pos = c :: cs)
    (h1 : c ∉ tokenSpaceChars) (h2 : c ∉ tokenIdentifierChars)
    (h3 : c ∉ tokenDigits) (h4 : c ≠ Char.ofNat 34)
    (hsp : l.start = l.pos)
    (hsym : tokenSymbols.find? (fun s2 => s2.isPrefixOf (c :: cs)) = some sym) :
    (stateCode (fuel + 1) l =
      (if sym = ("%\x7d").data ∨ sym = ("\x7d\x7d").data then
        Lexer.emit { l with width := 1, pos := l.pos + sym.length, col := l.col + sym.length }
          TokenSymbol
      else
        stateCode fuel
          (Lexer.emit { l with width := 1, pos := l.pos + sym.length, col := l.col + sym.length }
            TokenSymbol))) ∧
    (Lexer.emit { l with width := 1, pos := l.pos + sym.length, col := l.col + sym.length }
        TokenSymbol).tokens
      = l.tokens ++ [⟨TokenSymbol, sym, l.startline, l.startcol⟩] ∧
    lex (("t").data) (("\x7b\x7ba==b\x7d\x7d").data) =
      .ok [⟨TokenSymbol, ("\x7b\x7b").data, 1, 1⟩, ⟨TokenIdentifier, ("a").data, 1, 3⟩,
        ⟨TokenSymbol, ("==").data, 1, 4⟩, ⟨TokenIdentifier, ("b").data, 1, 6⟩,
        ⟨TokenSymbol, ("\x7d\x7d").data, 1, 7⟩] := by
  have hsym2 : tokenSymbols.find? (fun s2 =>
      s2.isPrefixOf ((({ l with width := 1 } : Lexer)).input.drop
        (({ l with width := 1 } : Lexer)).start)) = some sym := by
    show tokenSymbols.find? (fun s2 => s2.isPrefixOf (l.input.drop l.start)) = some sym
    rw [hsp, hd]
    exact hsym
  have hpre : sym.isPrefixOf (c :: cs) = true := by
    have h5 := List.find?_some hsym
    simpa using h5
  refine ⟨?_, symbol_emit_tokens hd hsp hpre, by decide⟩
  rw [stateCode.eq_2, stateCodeF_to_sym (stateCode fuel) hd h1 h2 h3 h4,
    stateCodeSym_match (stateCode fuel) hsym2]

/-- Claim C4, witness: the symbol step applied to a concrete code-mode state
over the input "==" emits the single Symbol token "==". -/
theorem c4_symbolTable_witness :
    (Lexer.emit { (⟨("t").data, ("==").data, 0, 0, 0, [], false, 1, 1, 1, 1⟩ : Lexer) with
        width := 1, pos := 0 + (("==").data).length, col := 1 + (("==").data).length }
      TokenSymbol).tokens
      = [] ++ [⟨TokenSymbol, ("==").data, 1, 1⟩] :=
  (c4_symbolTable 3 ⟨("t").data, ("==").data, 0, 0, 0, [], false, 1, 1, 1, 1⟩
    ('=' : Char) (("=").data) (("==").data) (by decide) (by decide) (by decide) (by decide)
    (by decide) rfl (by decide)).2.1

/-- Claim C5: a scanned identifier run (pending text extended by a maximal
run of identifier characters followed by a maximal run of digits, as
`identText` records) is emitted as a Keyword token exactly when its text is
one of the six reserved words, and as an Identifier token otherwise; and the
tag "\x7b% if a and b %\x7d" scans to Symbol/Identifier "if"/Identifier
"a"/Keyword "and"/Identifier "b"/Symbol — `if` is not reserved. -/
theorem c5_keywordVsIdentifier (l : Lexer) :
    ((stateIdentifier l).tokens = l.tokens ++
      [⟨if identText l ∈ tokenKeywords then TokenKeyword else TokenIdentifier,
        identText l, l.startline, l.startcol⟩]) ∧
    lex (("t").data) (("\x7b% if a and b %\x7d").data) =
      .ok [⟨TokenSymbol, ("\x7b%").data, 1, 1⟩, ⟨TokenIdentifier, ("if").data, 1, 3⟩,
        ⟨TokenIdentifier, ("a").data, 1, 6⟩, ⟨TokenKeyword, ("and").data, 1, 8⟩,
        ⟨TokenIdentifier, ("b").data, 1, 9⟩, ⟨TokenSymbol, ("%\x7d").data, 1, 11⟩] :=
  ⟨stateIdentifier_tokens l, by decide⟩

/-- Claim C6: number scanning consumes a maximal run of decimal digits only
(the emitted text is the pending text extended by the digit run recorded by
`numberText`) and emits a Number token; consequently "\x7b\x7b 4.2 \x7d\x7d"
scans to Symbol, Number "4", Symbol ".", Number "2", Symbol. -/
theorem c6_numberScan (l : Lexer) :
    ((stateNumber l).tokens =
      l.tokens ++ [⟨TokenNumber, numberText l, l.startline, l.startcol⟩]) ∧
    lex (("t").data) (("\x7b\x7b 4.2 \x7d\x7d").data) =
      .ok [⟨TokenSymbol, ("\x7b\x7b").data, 1, 1⟩, ⟨TokenNumber, ("4").data, 1, 3⟩,
        ⟨TokenSymbol, (".").data, 1, 5⟩, ⟨TokenNumber, ("2").data, 1, 6⟩,
        ⟨TokenSymbol, ("\x7d\x7d").data, 1, 7⟩] :=
  ⟨stateNumber_tokens l, by decide⟩

/-- Claim C7: scanning "\x7b\x7b \x22abc \x7d\x7d" (end of input inside a
string literal) returns a single LexicalError whose message references
"string not closed"; the error is the only observable result — no token list
is returned (`LexResult.err` carries only the error). -/
theorem c7_unterminatedStr :
    lex (("t").data) (("\x7b\x7b \x22abc \x7d\x7d").data) =
      .err ⟨("t").data, 1, 3, msgStrNotClosed⟩ ∧
    List.IsInfix (("string not closed").data) msgStrNotClosed := by
  decide

/-- Claim C8: whenever `lex` fails it returns exactly one error, carrying the
template name, a 1-based line, a 1-based column and a nonempty human-readable
message; no token list is returned (`LexResult.err` carries only the error),
and the final scanner state holds exactly one error token — scanning halted
at the point of detection and no further error was aggregated. -/
theorem c8_singleError (nm s : Str) (e : LexError) (h : lex nm s = .err e) :
    e.name = nm ∧ 1 ≤ e.line ∧ 1 ≤ e.col ∧ e.msg ≠ [] ∧
    (lexRun nm s).tokens.countP (fun t => t.typ == TokenError) = 1 :=
  lex_err_facts h

/-- Claim C8, witness: the unclosed comment "\x7b# x". -/
theorem c8_singleError_witness :
    (⟨("t").data, 1, 1, msgCommentNotClosed⟩ : LexError).name = ("t").data ∧
    1 ≤ (⟨("t").data, 1, 1, msgCommentNotClosed⟩ : LexError).line ∧
    1 ≤ (⟨("t").data, 1, 1, msgCommentNotClosed⟩ : LexError).col ∧
    (⟨("t").data, 1, 1, msgCommentNotClosed⟩ : LexError).msg ≠ [] ∧
    (lexRun (("t").data) (("\x7b# x").data)).tokens.countP
      (fun t => t.typ == TokenError) = 1 :=
  c8_singleError (("t").data) (("\x7b# x").data)
    ⟨("t").data, 1, 1, msgCommentNotClosed⟩ (by decide)

/-- Claim C9: when the input is exhausted in code mode with nothing pending,
the state machine shuts down normally — the state is returned unchanged (but
for the `width` scratch field), with no error raised and no token added; in
particular "\x7b\x7b foo" (expression tag never closed) scans successfully
to its two tokens. -/
theorem c9_eofInCodeMode (fuel : Nat) (l : Lexer)
    (h1 : l.input.length ≤ l.pos) (h2 : l.input.length ≤ l.start) :
    stateCode (fuel + 1) l = { l with width := 0 } ∧
    lex (("t").data) (("\x7b\x7b foo").data) =
      .ok [⟨TokenSymbol, ("\x7b\x7b").data, 1, 1⟩,
        ⟨TokenIdentifier, ("foo").data, 1, 3⟩] :=
  ⟨by
    rw [stateCode.eq_2]
    exact stateCodeF_eof (stateCode fuel) h1 h2, by decide⟩

/-- Claim C9, witness: a concrete exhausted code-mode state. -/
theorem c9_eofInCodeMode_witness :
    stateCode 3 ⟨("t").data, ("x").data, 5, 7, 0, [], false, 1, 1, 1, 1⟩ =
      { (⟨("t").data, ("x").data, 5, 7, 0, [], false, 1, 1, 1, 1⟩ : Lexer) with width := 0 } ∧
    lex (("t").data) (("\x7b\x7b foo").data) =
      .ok [⟨TokenSymbol, ("\x7b\x7b").data, 1, 1⟩,
        ⟨TokenIdentifier, ("foo").data, 1, 3⟩] :=
  c9_eofInCodeMode 2 ⟨("t").data, ("x").data, 5, 7, 0, [], false, 1, 1, 1, 1⟩
    (by decide) (by decide)

/-- Claim C10: a U+0001 character (the value of the EOF sentinel of the scanner)
ends the scan when reached in text mode — for any brace- and sentinel-free
prefix `s` and arbitrary remainder `t2`, the whole scan returns successfully
with a single HTML token holding `s` plus the U+0001 itself, and nothing of
`t2` appears in any token; and inside a string literal the scan loop treats
U+0001 as end of input and raises "string not closed" even though input
(including the closing quote) remains, as both the general `stringLoop` fact
and the scan of "\x7b\x7b\x22a\x01b\x22\x7d\x7d" show. -/
theorem c10_eofSentinel (nm s t2 : Str)
    (h : ∀ c ∈ s, c ≠ Char.ofNat 123 ∧ c ≠ EOFRune) :
    lex nm (s ++ EOFRune :: t2) = .ok [⟨TokenHTML, s ++ [EOFRune], 1, 1⟩] ∧
    (∀ (l : Lexer) (rest : Str) (fuel : Nat), l.input.drop l.pos = EOFRune :: rest →
      stringLoop (fuel + 1) l =
        (Lexer.errorf { l with width := 1, pos := l.pos + 1 } msgStrNotClosed, true)) ∧
    lex (("t").data) (("\x7b\x7b\x22a\x01b\x22\x7d\x7d").data) =
      .err ⟨("t").data, 1, 3, msgStrNotClosed⟩ := by
  refine ⟨?_, fun l rest fuel hd => stringLoop_sentinel fuel hd, by decide⟩
  have hrun := runAux_sentinel s ((s ++ EOFRune :: t2).length + 4)
    { name := nm, input := s ++ EOFRune :: t2, start := 0, pos := 0, width := 0, tokens := [],
      errored := false, startline := 1, startcol := 1, line := 1, col := 1 }
    t2 (by simp) h (by simp; omega)
  simp only [List.drop_zero, List.nil_append, Nat.zero_add, Nat.sub_zero] at hrun
  have htk : (lexRun nm (s ++ EOFRune :: t2)).tokens =
      [⟨TokenHTML, s ++ [EOFRune], 1, 1⟩] := by
    have h1 := hrun.1
    rw [if_pos (by omega)] at h1
    have ht : (s ++ EOFRune :: t2).take (s.length + 1) = s ++ [EOFRune] := by
      rw [List.take_append 1]
      rfl
    rw [ht] at h1
    exact h1
  have herr : (lexRun nm (s ++ EOFRune :: t2)).errored = false := hrun.2
  unfold lex
  simp only []
  rw [herr]
  simp only [Bool.false_eq_true, if_false]
  rw [htk]

/-- Claim C10, witness: the input "A" ++ U+0001 ++ "B" scans to the single
HTML token "A\x01"; the trailing "B" is dropped. -/
theorem c10_eofSentinel_witness :
    lex (("t").data) ((("A").data) ++ EOFRune :: (("B").data)) =
      .ok [⟨TokenHTML, (("A").data) ++ [EOFRune], 1, 1⟩] :=
  (c10_eofSentinel (("t").data) (("A").data) (("B").data) (by decide)).1


end Pongo2
